import Mathlib

/-!
Verification of the crawl/download engine of `scrap.py`.

The development shallowly embeds the program's pure logic over `String`
(lists of characters), models the external collaborators (HTTP transport,
HTML parsing, the standard-library RFC 3986 `urljoin` resolution, the
filesystem) as oracles passed to the embedded functions, and proves the
specification's claims about the embedded code.
-/

namespace Scrap

/-! ### String primitives

These mirror the Python `str` operations used by the source
(`startswith`, `endswith`, `lower`, `in`, `split`, `rfind`) as
structurally recursive functions on the underlying character list. -/

/-- Does the first list start with the second one (Python `str.startswith`)? -/
def listStartsWith : List Char → List Char → Bool
  | _, [] => true
  | [], _ :: _ => false
  | c :: cs, d :: ds => c == d && listStartsWith cs ds

/-- Python `s.startswith(pat)`. -/
def strStartsWith (s pat : String) : Bool :=
  listStartsWith s.toList pat.toList

/-- Python `s.endswith(pat)`. -/
def strEndsWith (s pat : String) : Bool :=
  listStartsWith s.toList.reverse pat.toList.reverse

/-- Python `s.lower()` (ASCII case folding, the only case exercised here). -/
def strLower (s : String) : String :=
  String.mk (s.toList.map Char.toLower)

/-- Python `c in s` for a single character. -/
def strContainsChar (s : String) (c : Char) : Bool :=
  s.toList.contains c

/-- Split a character list at the first occurrence of `c`; `none` when `c`
does not occur.  Returns the parts strictly before and strictly after. -/
def splitAtFirstChar (c : Char) : List Char → Option (List Char × List Char)
  | [] => none
  | x :: xs =>
    if x == c then some ([], xs)
    else
      match splitAtFirstChar c xs with
      | none => none
      | some (a, b) => some (x :: a, b)

/-- Split a character list at the last occurrence of `c` (Python `rfind`). -/
def splitAtLastChar (c : Char) (l : List Char) : Option (List Char × List Char) :=
  match splitAtFirstChar c l.reverse with
  | none => none
  | some (a, b) => some (b.reverse, a.reverse)

/-- Python `s.split(c)`: split at every occurrence of `c`. -/
def splitAllOnChar (c : Char) : List Char → List (List Char)
  | [] => [[]]
  | x :: xs =>
    let r := splitAllOnChar c xs
    if x == c then [] :: r
    else
      match r with
      | [] => [[x]]
      | h :: t => (x :: h) :: t

/-! ### The `urllib.parse` functions used by the source

`scrap.py` imports `urljoin`, `urlparse`, `urldefrag`, `urlunparse` from
`urllib.parse`.  The splitting functions below are translated from
CPython's `urlsplit` / `urlunsplit` / `_splitparams` (the parts the
program exercises; the `ValueError` branch for mismatched IPv6 brackets
and the WHATWG control-character stripping are not modelled, as no claim
reaches them).  The full RFC 3986 *resolution* `urljoin` is an external
capability: the embedded `build_absolute_url` takes it as an oracle. -/

/-- Result of CPython `urlsplit`. -/
structure SplitResult where
  scheme : String
  netloc : String
  path : String
  query : String
  fragment : String
deriving Repr, DecidableEq

/-- Result of CPython `urlparse` (= `urlsplit` plus the params split). -/
structure ParseResult where
  scheme : String
  netloc : String
  path : String
  params : String
  query : String
  fragment : String
deriving Repr, DecidableEq

/-- A character allowed in a URL scheme after the initial letter. -/
def isSchemeChar (c : Char) : Bool :=
  c.isAlphanum || c == '+' || c == '-' || c == '.'

/-- CPython `urlsplit` scheme detection: split at the first `:` when the
part before it is a nonempty valid scheme (letter first, scheme chars
after); the scheme is lowercased. -/
def splitScheme (url : List Char) : List Char × List Char :=
  match splitAtFirstChar ':' url with
  | none => ([], url)
  | some (before, after) =>
    match before with
    | [] => ([], url)
    | c :: _ =>
      if c.isAlpha && before.all isSchemeChar then (before.map Char.toLower, after)
      else ([], url)

/-- CPython `_splitnetloc`: when the remainder starts with `//`, the
netloc extends to the next `/`, `?` or `#`. -/
def splitNetloc (url : List Char) : List Char × List Char :=
  match url with
  | '/' :: '/' :: rest =>
    (rest.takeWhile (fun c => !(c == '/' || c == '?' || c == '#')),
     rest.dropWhile (fun c => !(c == '/' || c == '?' || c == '#')))
  | _ => ([], url)

/-- CPython `urlsplit`: scheme, then netloc, then fragment at the first
`#`, then query at the first `?`. -/
def urlsplit (url : String) : SplitResult :=
  let l := url.toList
  let (scheme, rest1) := splitScheme l
  let (netloc, rest2) := splitNetloc rest1
  let (rest3, fragment) :=
    match splitAtFirstChar '#' rest2 with
    | none => (rest2, [])
    | some (a, b) => (a, b)
  let (path, query) :=
    match splitAtFirstChar '?' rest3 with
    | none => (rest3, [])
    | some (a, b) => (a, b)
  ⟨String.mk scheme, String.mk netloc, String.mk path, String.mk query, String.mk fragment⟩

/-- CPython `urlunsplit`. -/
def urlunsplit (r : SplitResult) : String :=
  let u0 := r.path.toList
  let u1 :=
    if !r.netloc.toList.isEmpty || u0.take 2 == ['/', '/'] then
      let u' :=
        match u0 with
        | [] => []
        | c :: _ => if c == '/' then u0 else '/' :: u0
      '/' :: '/' :: (r.netloc.toList ++ u')
    else u0
  let u2 := if !r.scheme.toList.isEmpty then r.scheme.toList ++ ':' :: u1 else u1
  let u3 := if !r.query.toList.isEmpty then u2 ++ '?' :: r.query.toList else u2
  let u4 := if !r.fragment.toList.isEmpty then u3 ++ '#' :: r.fragment.toList else u3
  String.mk u4

/-- CPython `_splitparams`: split params off the last path segment at its
first `;`. -/
def splitparams (path : List Char) : List Char × List Char :=
  match splitAtLastChar '/' path with
  | some (before, lastSeg) =>
    match splitAtFirstChar ';' lastSeg with
    | some (a, b) => (before ++ '/' :: a, b)
    | none => (path, [])
  | none =>
    match splitAtFirstChar ';' path with
    | some (a, b) => (a, b)
    | none => (path, [])

/-- CPython `urlparse`. -/
def urlparse (url : String) : ParseResult :=
  let s := urlsplit url
  let (path, params) := splitparams s.path.toList
  ⟨s.scheme, s.netloc, String.mk path, String.mk params, s.query, s.fragment⟩

/-- CPython `urlunparse`. -/
def urlunparse (p : ParseResult) : String :=
  let u :=
    if !p.params.toList.isEmpty then String.mk (p.path.toList ++ ';' :: p.params.toList)
    else p.path
  urlunsplit ⟨p.scheme, p.netloc, u, p.query, p.fragment⟩

/-- CPython `urldefrag` (the first component): when the URL carries a
`#`, re-assemble it from its split parts with the fragment dropped;
otherwise return it unchanged. -/
def urldefrag (url : String) : String :=
  if strContainsChar url '#' = true then
    let s := urlsplit url
    urlunsplit ⟨s.scheme, s.netloc, s.path, s.query, ""⟩
  else url

/-- Python `query.split('?')[-1]`: the substring after the last `?` (the
whole string when `?` does not occur). -/
def lastPartAfterQuestion (q : String) : String :=
  String.mk ((splitAllOnChar '?' q.toList).getLastD [])

/-! ### `build_absolute_url` (scrap.py lines 45-75)

`urljoin` — the standard RFC 3986 resolution from `urllib.parse` — is an
external capability and is passed in as a function argument. -/

/-- Source `build_absolute_url(current_url, href)`: standard joining,
then the pagination-query repair — if the query of the joined URL itself
contains a `?`, keep only the part after the last `?` and reassemble. -/
def build_absolute_url (urljoin : String → String → String)
    (current_url href : String) : String :=
  let joined_url := urljoin current_url href
  let parsed_join := urlparse joined_url
  if strContainsChar parsed_join.query '?' = true then
    let correct_query := lastPartAfterQuestion parsed_join.query
    urlunparse
      ⟨parsed_join.scheme, parsed_join.netloc, parsed_join.path,
       parsed_join.params, correct_query, parsed_join.fragment⟩
  else joined_url

/-! ### `make_request_with_retries` (scrap.py lines 26-42)

The transport is an oracle `outcomes : Nat → Option α` giving the result
of the GET performed on attempt `i` (`none` = transport error or non-2xx
status, both raised as `RequestException` and caught identically).  The
function returns the Python return value together with the trace of GET
attempts and `time.sleep` calls, in order. -/

def RETRIES : Nat := 3

def BACKOFF_FACTOR : Nat := 1

/-- One observable action of the retrying fetcher. -/
inductive FetchEvent where
  | attempt (i : Nat)
  | sleep (seconds : Nat)
deriving Repr, DecidableEq

/-- The body of `for attempt in range(RETRIES)`: try the GET; on success
return the response; on failure return `None` when this was the last
attempt, otherwise sleep `BACKOFF_FACTOR * 2 ** attempt` seconds and
continue with the remaining attempts. -/
def retryGo {α : Type} (outcomes : Nat → Option α) :
    List Nat → Option α × List FetchEvent
  | [] => (none, [])
  | attempt :: restAttempts =>
    match outcomes attempt with
    | some r => (some r, [FetchEvent.attempt attempt])
    | none =>
      if attempt + 1 = RETRIES then (none, [FetchEvent.attempt attempt])
      else
        let rest := retryGo outcomes restAttempts
        (rest.1,
         FetchEvent.attempt attempt ::
           FetchEvent.sleep (BACKOFF_FACTOR * 2 ^ attempt) :: rest.2)

/-- Source `make_request_with_retries(session, url, **kwargs)` for one
URL, with the per-attempt outcomes supplied by the transport oracle. -/
def make_request_with_retries {α : Type} (outcomes : Nat → Option α) :
    Option α × List FetchEvent :=
  retryGo outcomes (List.range RETRIES)

/-! ### The crawl engine (scrap.py lines 99-154)

External collaborators are collected in `Oracles`:
* `urljoin` — RFC 3986 resolution (`urllib.parse.urljoin`);
* `fetchPage url` — the composite of `make_request_with_retries(session,
  url, timeout=15)` and BeautifulSoup href extraction: `none` when the
  fetch failed all retries, `some hrefs` (document-order raw hrefs)
  otherwise;
* `downloadOk k` — whether the `k`-th `download_pdf` call of the run
  (counted from 0) succeeds (fetches, streams and writes the file).

The crawl state carries the three collections of the source plus the
download-call counter and an event trace used to state the claims. -/

/-- One observable action of the crawl loop. -/
inductive CrawlEvent where
  | pageFetch (url : String)
  | fetchFailed (url : String)
  | downloadAttempt (url : String) (ok : Bool)
  | enqueue (url : String)
deriving Repr, DecidableEq

/-- External capabilities of the crawl engine. -/
structure Oracles where
  urljoin : String → String → String
  fetchPage : String → Option (List String)
  downloadOk : Nat → Bool

/-- The mutable state of one crawl invocation. -/
structure CrawlState where
  urls_to_visit : List String
  visited_urls : List String
  downloaded_pdf_urls : List String
  downloadTicks : Nat
  events : List CrawlEvent
deriving Repr, DecidableEq

/-- Link classification (the body of `for link in soup.find_all(...)`,
scrap.py lines 130-146): resolve the href, then either attempt a PDF
download, enqueue an in-scope unseen page, or discard. -/
def processLink (o : Oracles) (start_url current_url : String)
    (s : CrawlState) (href : String) : CrawlState :=
  let absolute_url := build_absolute_url o.urljoin current_url href
  let normalized_absolute_url := urldefrag absolute_url
  if strEndsWith (strLower absolute_url) ".pdf" = true then
    if absolute_url ∉ s.downloaded_pdf_urls then
      let ok := o.downloadOk s.downloadTicks
      let s' := { s with
        downloadTicks := s.downloadTicks + 1,
        events := s.events ++ [CrawlEvent.downloadAttempt absolute_url ok] }
      if ok = true then
        { s' with downloaded_pdf_urls := absolute_url :: s'.downloaded_pdf_urls }
      else s'
    else s
  else
    if strStartsWith normalized_absolute_url start_url = true
        ∧ normalized_absolute_url ∉ s.visited_urls then
      if absolute_url ∉ s.urls_to_visit then
        { s with
          urls_to_visit := s.urls_to_visit ++ [absolute_url],
          events := s.events ++ [CrawlEvent.enqueue absolute_url] }
      else s
    else s

/-- One iteration of `while urls_to_visit` (scrap.py lines 114-146): pop
the head, skip it when its fragment-stripped form was already visited,
otherwise mark it visited, fetch it, and process every extracted href. -/
def crawlIter (o : Oracles) (start_url : String) (s : CrawlState) : CrawlState :=
  match s.urls_to_visit with
  | [] => s
  | current_url :: rest =>
    let s1 := { s with urls_to_visit := rest }
    let normalized_url := urldefrag current_url
    if normalized_url ∈ s1.visited_urls then s1
    else
      let s2 := { s1 with
        visited_urls := normalized_url :: s1.visited_urls,
        events := s1.events ++ [CrawlEvent.pageFetch current_url] }
      match o.fetchPage current_url with
      | none => { s2 with events := s2.events ++ [CrawlEvent.fetchFailed current_url] }
      | some hrefs => hrefs.foldl (processLink o start_url current_url) s2

/-- The crawl loop, fuelled: runs `crawlIter` until the frontier is empty
or the fuel runs out. -/
def crawlLoop (o : Oracles) (start_url : String) : Nat → CrawlState → CrawlState
  | 0, s => s
  | fuel + 1, s =>
    match s.urls_to_visit with
    | [] => s
    | _ :: _ => crawlLoop o start_url fuel (crawlIter o start_url s)

/-- The initial crawl state: frontier `[start_url]`, empty sets. -/
def initState (start_url : String) : CrawlState :=
  ⟨[start_url], [], [], 0, []⟩

/-- Source `crawl_and_download_pdfs(start_url, ...)`, fuelled. -/
def crawl_and_download_pdfs (o : Oracles) (start_url : String) (fuel : Nat) :
    CrawlState :=
  crawlLoop o start_url fuel (initState start_url)

/-! ### Observables derived from the event trace -/

/-- Fragment-stripped URLs of the page fetches performed, in order. -/
def pageFetchNormsOf (evs : List CrawlEvent) : List String :=
  evs.filterMap (fun e =>
    match e with
    | CrawlEvent.pageFetch u => some (urldefrag u)
    | _ => none)

/-- URLs appended to the frontier by link classification, in order. -/
def enqueuedOf (evs : List CrawlEvent) : List String :=
  evs.filterMap (fun e =>
    match e with
    | CrawlEvent.enqueue u => some u
    | _ => none)

/-- Outcomes of the download attempts performed for URL `u`, in order. -/
def dlOf (u : String) (evs : List CrawlEvent) : List Bool :=
  evs.filterMap (fun e =>
    match e with
    | CrawlEvent.downloadAttempt v ok => if v = u then some ok else none
    | _ => none)

/-! ### Concrete oracles and states used in closed statements -/

/-- A crawl state with everything empty; used to state classification
facts about a single discovered link. -/
def blankState : CrawlState := ⟨[], [], [], 0, []⟩

/-- Oracle whose `urljoin` returns the href unchanged (all hrefs in the
scenarios are already absolute), with no pages and failing downloads. -/
def idJoinOracle : Oracles :=
  ⟨fun _ hr => hr, fun _ => none, fun _ => false⟩

/-- Page map of the failed-download-retry scenario: the start page links
a PDF and a second page; the second page links the same PDF again. -/
def scenarioFetch : String → Option (List String) := fun u =>
  if u = "https://s/" then some ["https://s/d.pdf", "https://s/b"]
  else if u = "https://s/b" then some ["https://s/d.pdf"]
  else none

/-- Oracle of the failed-download-retry scenario: the first download call
of the run fails, every later one succeeds. -/
def scenarioOracle : Oracles :=
  ⟨fun _ hr => hr, scenarioFetch, fun k => decide (0 < k)⟩

/-! ### Termination measure for the crawl loop -/

/-- The fragment-stripped forms of a URL universe, deduplicated. -/
def normUniverse (D : List String) : List String :=
  (D.map urldefrag).dedup

/-- Measure: (number of not-yet-visited normalized discoverable URLs)
weighted by `M + 1` (one more than the per-page href bound), plus the
frontier length.  Every crawl iteration strictly decreases it. -/
def crawlMeasure (D : List String) (M : Nat) (s : CrawlState) : Nat :=
  ((normUniverse D).filter (fun n => !(decide (n ∈ s.visited_urls)))).length * (M + 1)
    + s.urls_to_visit.length

/-! ### Invariants carried through the crawl loop -/

/-- C4 invariant: the fragment-stripped URLs fetched so far are pairwise
distinct, and each of them is in the visited set. -/
def Inv4 (s : CrawlState) : Prop :=
  (pageFetchNormsOf s.events).Nodup
  ∧ ∀ n ∈ pageFetchNormsOf s.events, n ∈ s.visited_urls

/-- C6 invariant: a URL is in the downloaded set exactly when one
successful download attempt for it has occurred, and successful attempts
never repeat. -/
def Inv6 (s : CrawlState) : Prop :=
  ∀ u, (u ∈ s.downloaded_pdf_urls ∧ (dlOf u s.events).count true = 1)
     ∨ (u ∉ s.downloaded_pdf_urls ∧ (dlOf u s.events).count true = 0)

/-- C8 invariant: the URLs enqueued so far are pairwise distinct, and
each of them is still in the frontier or has its fragment-stripped form
in the visited set. -/
def Inv8 (s : CrawlState) : Prop :=
  (enqueuedOf s.events).Nodup
  ∧ ∀ u ∈ enqueuedOf s.events, u ∈ s.urls_to_visit ∨ urldefrag u ∈ s.visited_urls

/-! ## Helper lemmas

Branch characterizations of `processLink` and `crawlIter`, generic fold
and loop preservation, and the arithmetic of the termination measure. -/

/-- PDF branch, URL already downloaded: nothing happens. -/
theorem pl_pdf_dup (o : Oracles) (st cu : String) (s : CrawlState) (hr : String)
    (hpdf : strEndsWith (strLower (build_absolute_url o.urljoin cu hr)) ".pdf" = true)
    (hmem : build_absolute_url o.urljoin cu hr ∈ s.downloaded_pdf_urls) :
    processLink o st cu s hr = s := by
  simp only [processLink]
  rw [if_pos hpdf, if_neg (fun h => h hmem)]

/-- PDF branch, URL not yet downloaded: a download attempt is made and
the URL joins the downloaded set exactly when the attempt succeeds. -/
theorem pl_pdf_new (o : Oracles) (st cu : String) (s : CrawlState) (hr : String)
    (hpdf : strEndsWith (strLower (build_absolute_url o.urljoin cu hr)) ".pdf" = true)
    (hnew : build_absolute_url o.urljoin cu hr ∉ s.downloaded_pdf_urls) :
    processLink o st cu s hr = { s with
      downloadTicks := s.downloadTicks + 1,
      events := s.events ++
        [CrawlEvent.downloadAttempt (build_absolute_url o.urljoin cu hr)
          (o.downloadOk s.downloadTicks)],
      downloaded_pdf_urls :=
        if o.downloadOk s.downloadTicks = true
        then build_absolute_url o.urljoin cu hr :: s.downloaded_pdf_urls
        else s.downloaded_pdf_urls } := by
  simp only [processLink]
  rw [if_pos hpdf, if_pos hnew]
  cases hok : o.downloadOk s.downloadTicks <;> simp [hok]

/-- Page branch, all enqueue guards pass: the URL is appended at the tail
of the frontier. -/
theorem pl_page_enq (o : Oracles) (st cu : String) (s : CrawlState) (hr : String)
    (hpdf : strEndsWith (strLower (build_absolute_url o.urljoin cu hr)) ".pdf" = false)
    (hscope : strStartsWith (urldefrag (build_absolute_url o.urljoin cu hr)) st = true)
    (hvis : urldefrag (build_absolute_url o.urljoin cu hr) ∉ s.visited_urls)
    (hfr : build_absolute_url o.urljoin cu hr ∉ s.urls_to_visit) :
    processLink o st cu s hr = { s with
      urls_to_visit := s.urls_to_visit ++ [build_absolute_url o.urljoin cu hr],
      events := s.events ++ [CrawlEvent.enqueue (build_absolute_url o.urljoin cu hr)] } := by
  simp only [processLink]
  rw [if_neg (by simp [hpdf]), if_pos ⟨hscope, hvis⟩, if_pos hfr]

/-- Page branch, some enqueue guard fails: nothing happens. -/
theorem pl_page_skip (o : Oracles) (st cu : String) (s : CrawlState) (hr : String)
    (hpdf : strEndsWith (strLower (build_absolute_url o.urljoin cu hr)) ".pdf" = false)
    (hblock : ¬(strStartsWith (urldefrag (build_absolute_url o.urljoin cu hr)) st = true
        ∧ urldefrag (build_absolute_url o.urljoin cu hr) ∉ s.visited_urls)
      ∨ build_absolute_url o.urljoin cu hr ∈ s.urls_to_visit) :
    processLink o st cu s hr = s := by
  simp only [processLink]
  rw [if_neg (by simp [hpdf])]
  rcases hblock with hb | hb
  · rw [if_neg hb]
  · by_cases hsc : strStartsWith (urldefrag (build_absolute_url o.urljoin cu hr)) st = true
        ∧ urldefrag (build_absolute_url o.urljoin cu hr) ∉ s.visited_urls
    · rw [if_pos hsc, if_neg (fun h => h hb)]
    · rw [if_neg hsc]

/-- Full case split of link classification: the state is unchanged, or a
download attempt is recorded, or the link is enqueued at the tail. -/
theorem pl_cases (o : Oracles) (st cu : String) (s : CrawlState) (hr : String) :
    processLink o st cu s hr = s
    ∨ (strEndsWith (strLower (build_absolute_url o.urljoin cu hr)) ".pdf" = true
        ∧ build_absolute_url o.urljoin cu hr ∉ s.downloaded_pdf_urls
        ∧ processLink o st cu s hr = { s with
            downloadTicks := s.downloadTicks + 1,
            events := s.events ++
              [CrawlEvent.downloadAttempt (build_absolute_url o.urljoin cu hr)
                (o.downloadOk s.downloadTicks)],
            downloaded_pdf_urls :=
              if o.downloadOk s.downloadTicks = true
              then build_absolute_url o.urljoin cu hr :: s.downloaded_pdf_urls
              else s.downloaded_pdf_urls })
    ∨ (strEndsWith (strLower (build_absolute_url o.urljoin cu hr)) ".pdf" = false
        ∧ urldefrag (build_absolute_url o.urljoin cu hr) ∉ s.visited_urls
        ∧ build_absolute_url o.urljoin cu hr ∉ s.urls_to_visit
        ∧ processLink o st cu s hr = { s with
            urls_to_visit := s.urls_to_visit ++ [build_absolute_url o.urljoin cu hr],
            events := s.events ++ [CrawlEvent.enqueue (build_absolute_url o.urljoin cu hr)] }) := by
  by_cases hpdf : strEndsWith (strLower (build_absolute_url o.urljoin cu hr)) ".pdf" = true
  · by_cases hmem : build_absolute_url o.urljoin cu hr ∈ s.downloaded_pdf_urls
    · exact Or.inl (pl_pdf_dup o st cu s hr hpdf hmem)
    · exact Or.inr (Or.inl ⟨hpdf, hmem, pl_pdf_new o st cu s hr hpdf hmem⟩)
  · have hpdf' : strEndsWith (strLower (build_absolute_url o.urljoin cu hr)) ".pdf" = false :=
      Bool.not_eq_true _ ▸ Bool.eq_false_iff.mpr (fun h => hpdf h)
    by_cases hsc : strStartsWith (urldefrag (build_absolute_url o.urljoin cu hr)) st = true
        ∧ urldefrag (build_absolute_url o.urljoin cu hr) ∉ s.visited_urls
    · by_cases hfr : build_absolute_url o.urljoin cu hr ∈ s.urls_to_visit
      · exact Or.inl (pl_page_skip o st cu s hr hpdf' (Or.inr hfr))
      · exact Or.inr (Or.inr ⟨hpdf', hsc.2, hfr,
          pl_page_enq o st cu s hr hpdf' hsc.1 hsc.2 hfr⟩)
    · exact Or.inl (pl_page_skip o st cu s hr hpdf' (Or.inl hsc))

/-- Empty frontier: an iteration does nothing. -/
theorem ci_nil (o : Oracles) (st : String) (s : CrawlState)
    (hq : s.urls_to_visit = []) : crawlIter o st s = s := by
  unfold crawlIter
  rw [hq]

/-- Dequeued URL already visited (after fragment stripping): it is
discarded without a fetch. -/
theorem ci_skip (o : Oracles) (st : String) (s : CrawlState) (cu : String)
    (rest : List String) (hq : s.urls_to_visit = cu :: rest)
    (hv : urldefrag cu ∈ s.visited_urls) :
    crawlIter o st s = { s with urls_to_visit := rest } := by
  unfold crawlIter
  rw [hq]
  simp only
  rw [if_pos hv]

/-- Dequeued URL not yet visited, fetch fails: it is marked visited and
abandoned, with no re-enqueue. -/
theorem ci_fail (o : Oracles) (st : String) (s : CrawlState) (cu : String)
    (rest : List String) (hq : s.urls_to_visit = cu :: rest)
    (hv : urldefrag cu ∉ s.visited_urls) (hf : o.fetchPage cu = none) :
    crawlIter o st s = { s with
      urls_to_visit := rest,
      visited_urls := urldefrag cu :: s.visited_urls,
      events := s.events ++ [CrawlEvent.pageFetch cu, CrawlEvent.fetchFailed cu] } := by
  unfold crawlIter
  rw [hq]
  simp only
  rw [if_neg hv, hf]
  simp

/-- Dequeued URL not yet visited, fetch succeeds: it is marked visited
and every extracted href is classified in order. -/
theorem ci_ok (o : Oracles) (st : String) (s : CrawlState) (cu : String)
    (rest : List String) (hrefs : List String) (hq : s.urls_to_visit = cu :: rest)
    (hv : urldefrag cu ∉ s.visited_urls) (hf : o.fetchPage cu = some hrefs) :
    crawlIter o st s = hrefs.foldl (processLink o st cu)
      { s with
        urls_to_visit := rest,
        visited_urls := urldefrag cu :: s.visited_urls,
        events := s.events ++ [CrawlEvent.pageFetch cu] } := by
  unfold crawlIter
  rw [hq]
  simp only
  rw [if_neg hv, hf]

/-- A property preserved by each fold step is preserved by the fold. -/
theorem foldlPreserves {σ α : Type} (f : σ → α → σ) (P : σ → Prop)
    (hf : ∀ s a, P s → P (f s a)) :
    ∀ (l : List α) (s : σ), P s → P (l.foldl f s)
  | [], _, hs => hs
  | a :: l, s, hs => foldlPreserves f P hf l (f s a) (hf s a hs)

/-- A property preserved by each iteration is preserved by the loop. -/
theorem loopPreserves (o : Oracles) (st : String) (P : CrawlState → Prop)
    (hstep : ∀ s, P s → P (crawlIter o st s)) :
    ∀ (fuel : Nat) (s : CrawlState), P s → P (crawlLoop o st fuel s)
  | 0, _, hs => hs
  | fuel + 1, s, hs => by
    unfold crawlLoop
    cases hq : s.urls_to_visit with
    | nil => exact hs
    | cons a t =>
      exact loopPreserves o st P hstep fuel (crawlIter o st s) (hstep s hs)

/-- Link classification never touches the visited set. -/
theorem pl_visited (o : Oracles) (st cu : String) (s : CrawlState) (hr : String) :
    (processLink o st cu s hr).visited_urls = s.visited_urls := by
  rcases pl_cases o st cu s hr with h | ⟨_, _, h⟩ | ⟨_, _, _, h⟩ <;> rw [h]

/-- Classifying a batch of hrefs never touches the visited set. -/
theorem foldl_visited (o : Oracles) (st cu : String) :
    ∀ (hrefs : List String) (s : CrawlState),
      (hrefs.foldl (processLink o st cu) s).visited_urls = s.visited_urls
  | [], _ => rfl
  | hr :: hrefs, s => by
    rw [List.foldl_cons, foldl_visited o st cu hrefs (processLink o st cu s hr),
      pl_visited]

/-- Link classification performs no page fetch. -/
theorem pl_fetchNorms (o : Oracles) (st cu : String) (s : CrawlState) (hr : String) :
    pageFetchNormsOf (processLink o st cu s hr).events = pageFetchNormsOf s.events := by
  rcases pl_cases o st cu s hr with h | ⟨_, _, h⟩ | ⟨_, _, _, h⟩ <;>
    simp [h, pageFetchNormsOf, List.filterMap_append]

/-- Classifying a batch of hrefs performs no page fetch. -/
theorem foldl_fetchNorms (o : Oracles) (st cu : String) :
    ∀ (hrefs : List String) (s : CrawlState),
      pageFetchNormsOf (hrefs.foldl (processLink o st cu) s).events
        = pageFetchNormsOf s.events
  | [], _ => rfl
  | hr :: hrefs, s => by
    rw [List.foldl_cons, foldl_fetchNorms o st cu hrefs (processLink o st cu s hr),
      pl_fetchNorms]

/-- Link classification appends at most the classified link's resolved
URL at the tail of the frontier. -/
theorem pl_frontier (o : Oracles) (st cu : String) (s : CrawlState) (hr : String) :
    (processLink o st cu s hr).urls_to_visit = s.urls_to_visit
    ∨ (processLink o st cu s hr).urls_to_visit
        = s.urls_to_visit ++ [build_absolute_url o.urljoin cu hr] := by
  rcases pl_cases o st cu s hr with h | ⟨_, _, h⟩ | ⟨_, _, _, h⟩ <;> simp [h]

/-- Classifying a batch of hrefs only ever appends to the frontier. -/
theorem foldl_frontier_append (o : Oracles) (st cu : String) :
    ∀ (hrefs : List String) (s : CrawlState),
      ∃ t, (hrefs.foldl (processLink o st cu) s).urls_to_visit = s.urls_to_visit ++ t
  | [], s => ⟨[], by simp⟩
  | hr :: hrefs, s => by
    obtain ⟨t, ht⟩ := foldl_frontier_append o st cu hrefs (processLink o st cu s hr)
    rcases pl_frontier o st cu s hr with h | h
    · exact ⟨t, by rw [List.foldl_cons, ht, h]⟩
    · exact ⟨[build_absolute_url o.urljoin cu hr] ++ t,
        by rw [List.foldl_cons, ht, h, List.append_assoc]⟩

/-- The frontier grows by at most one entry per classified href. -/
theorem foldl_frontier_len (o : Oracles) (st cu : String) :
    ∀ (hrefs : List String) (s : CrawlState),
      (hrefs.foldl (processLink o st cu) s).urls_to_visit.length
        ≤ s.urls_to_visit.length + hrefs.length
  | [], _ => Nat.le_refl _
  | hr :: hrefs, s => by
    have h1 := foldl_frontier_len o st cu hrefs (processLink o st cu s hr)
    rw [List.foldl_cons]
    rcases pl_frontier o st cu s hr with h | h <;> rw [h] at h1 <;>
      simp only [List.length_append, List.length_cons, List.length_nil] at h1 ⊢ <;>
      omega

/-- Every frontier entry after classifying a batch of hrefs was already
in the frontier or is the resolution of one of the hrefs. -/
theorem foldl_frontier_mem (o : Oracles) (st cu : String) :
    ∀ (hrefs : List String) (s : CrawlState) (u : String),
      u ∈ (hrefs.foldl (processLink o st cu) s).urls_to_visit →
      u ∈ s.urls_to_visit ∨ ∃ hr ∈ hrefs, u = build_absolute_url o.urljoin cu hr
  | [], _, _, hu => Or.inl hu
  | hr :: hrefs, s, u, hu => by
    rw [List.foldl_cons] at hu
    rcases foldl_frontier_mem o st cu hrefs (processLink o st cu s hr) u hu with h | ⟨x, hx, he⟩
    · rcases pl_frontier o st cu s hr with hf | hf <;> rw [hf] at h
      · exact Or.inl h
      · rcases List.mem_append.mp h with h' | h'
        · exact Or.inl h'
        · exact Or.inr ⟨hr, List.mem_cons_self .., by simpa using h'⟩
    · exact Or.inr ⟨x, List.mem_cons_of_mem _ hx, he⟩

/-- The observables distribute over trace concatenation. -/
theorem pageFetchNormsOf_append (a b : List CrawlEvent) :
    pageFetchNormsOf (a ++ b) = pageFetchNormsOf a ++ pageFetchNormsOf b := by
  simp [pageFetchNormsOf, List.filterMap_append]

/-- The enqueue observable distributes over trace concatenation. -/
theorem enqueuedOf_append (a b : List CrawlEvent) :
    enqueuedOf (a ++ b) = enqueuedOf a ++ enqueuedOf b := by
  simp [enqueuedOf, List.filterMap_append]

/-- The download observable distributes over trace concatenation. -/
theorem dlOf_append (u : String) (a b : List CrawlEvent) :
    dlOf u (a ++ b) = dlOf u a ++ dlOf u b := by
  simp [dlOf, List.filterMap_append]

/-- Value of the download observable on a matching attempt event. -/
theorem dlOf_attempt_self (u : String) (ok : Bool) :
    dlOf u [CrawlEvent.downloadAttempt u ok] = [ok] := by
  simp [dlOf]

/-- Value of the download observable on a non-matching attempt event. -/
theorem dlOf_attempt_ne (u v : String) (ok : Bool) (h : ¬v = u) :
    dlOf u [CrawlEvent.downloadAttempt v ok] = [] := by
  simp [dlOf, h]

/-- The download observable ignores an enqueue event. -/
theorem dlOf_enqueue (u v : String) : dlOf u [CrawlEvent.enqueue v] = [] := rfl

/-- The download observable ignores a fetch/failure event pair. -/
theorem dlOf_fetch_pair (u v : String) :
    dlOf u [CrawlEvent.pageFetch v, CrawlEvent.fetchFailed v] = [] := rfl

/-- The download observable ignores a fetch event. -/
theorem dlOf_pageFetch (u v : String) : dlOf u [CrawlEvent.pageFetch v] = [] := rfl

/-- Value of the enqueue observable on an enqueue event. -/
theorem enqueuedOf_enqueue (v : String) : enqueuedOf [CrawlEvent.enqueue v] = [v] := rfl

/-- The enqueue observable ignores a download attempt. -/
theorem enqueuedOf_attempt (v : String) (ok : Bool) :
    enqueuedOf [CrawlEvent.downloadAttempt v ok] = [] := rfl

/-- The enqueue observable ignores a fetch/failure event pair. -/
theorem enqueuedOf_fetch_pair (v : String) :
    enqueuedOf [CrawlEvent.pageFetch v, CrawlEvent.fetchFailed v] = [] := rfl

/-- The enqueue observable ignores a fetch event. -/
theorem enqueuedOf_pageFetch (v : String) : enqueuedOf [CrawlEvent.pageFetch v] = [] := rfl

/-- Unrolled characterization of the retry loop at `RETRIES = 3`. -/
theorem retryTraceEq {α : Type} (outcomes : Nat → Option α) :
    make_request_with_retries outcomes =
      match outcomes 0 with
      | some r => (some r, [FetchEvent.attempt 0])
      | none =>
        match outcomes 1 with
        | some r =>
            (some r,
             [FetchEvent.attempt 0, FetchEvent.sleep (BACKOFF_FACTOR * 2 ^ 0),
              FetchEvent.attempt 1])
        | none =>
          match outcomes 2 with
          | some r =>
              (some r,
               [FetchEvent.attempt 0, FetchEvent.sleep (BACKOFF_FACTOR * 2 ^ 0),
                FetchEvent.attempt 1, FetchEvent.sleep (BACKOFF_FACTOR * 2 ^ 1),
                FetchEvent.attempt 2])
          | none =>
              (none,
               [FetchEvent.attempt 0, FetchEvent.sleep (BACKOFF_FACTOR * 2 ^ 0),
                FetchEvent.attempt 1, FetchEvent.sleep (BACKOFF_FACTOR * 2 ^ 1),
                FetchEvent.attempt 2]) := by
  have hr : List.range RETRIES = [0, 1, 2] := rfl
  unfold make_request_with_retries
  rw [hr]
  cases h0 : outcomes 0 <;> cases h1 : outcomes 1 <;> cases h2 : outcomes 2 <;>
    simp [retryGo, h0, h1, h2, RETRIES]

/-- One crawl iteration preserves the C4 invariant. -/
theorem ci_inv4 (o : Oracles) (st : String) (s : CrawlState) (h : Inv4 s) :
    Inv4 (crawlIter o st s) := by
  obtain ⟨hnd, hsub⟩ := h
  cases hq : s.urls_to_visit with
  | nil => rw [ci_nil o st s hq]; exact ⟨hnd, hsub⟩
  | cons cu rest =>
    by_cases hv : urldefrag cu ∈ s.visited_urls
    · rw [ci_skip o st s cu rest hq hv]
      exact ⟨hnd, hsub⟩
    · have hnotin : urldefrag cu ∉ pageFetchNormsOf s.events :=
        fun hmem => hv (hsub _ hmem)
      have hnd' : (pageFetchNormsOf s.events ++ [urldefrag cu]).Nodup := by
        simp [List.nodup_append, hnd, hnotin]
      have hsub' : ∀ n ∈ pageFetchNormsOf s.events ++ [urldefrag cu],
          n ∈ urldefrag cu :: s.visited_urls := by
        intro n hn
        rcases List.mem_append.mp hn with h' | h'
        · exact List.mem_cons_of_mem _ (hsub _ h')
        · simp at h'
          simp [h']
      cases hf : o.fetchPage cu with
      | none =>
        rw [ci_fail o st s cu rest hq hv hf]
        constructor
        · simpa [pageFetchNormsOf_append, pageFetchNormsOf] using hnd'
        · simpa [pageFetchNormsOf_append, pageFetchNormsOf] using hsub'
      | some hrefs =>
        rw [ci_ok o st s cu rest hrefs hq hv hf]
        constructor
        · rw [foldl_fetchNorms]
          simpa [pageFetchNormsOf_append, pageFetchNormsOf] using hnd'
        · rw [foldl_fetchNorms, foldl_visited]
          simpa [pageFetchNormsOf_append, pageFetchNormsOf] using hsub'

/-- Link classification preserves the C6 invariant. -/
theorem pl_inv6 (o : Oracles) (st cu : String) (s : CrawlState) (hr : String)
    (h : Inv6 s) : Inv6 (processLink o st cu s hr) := by
  rcases pl_cases o st cu s hr with hc | ⟨_, hnew, hc⟩ | ⟨_, _, _, hc⟩
  · rw [hc]; exact h
  · rw [hc]
    intro u
    by_cases hu : build_absolute_url o.urljoin cu hr = u
    · subst hu
      rcases h (build_absolute_url o.urljoin cu hr) with ⟨hmem, _⟩ | ⟨_, hcnt⟩
      · exact absurd hmem hnew
      · cases hok : o.downloadOk s.downloadTicks with
        | false =>
          refine Or.inr ⟨by simpa using hnew, ?_⟩
          rw [dlOf_append, dlOf_attempt_self]
          simp [List.count_append, hcnt]
        | true =>
          refine Or.inl ⟨by simp, ?_⟩
          rw [dlOf_append, dlOf_attempt_self]
          simp [List.count_append, hcnt]
    · rcases h u with ⟨hmem, hcnt⟩ | ⟨hmem, hcnt⟩
      · refine Or.inl ⟨?_, ?_⟩
        · cases hok : o.downloadOk s.downloadTicks <;> simp [hok, hmem]
        · rw [dlOf_append, dlOf_attempt_ne _ _ _ hu]
          simp [List.count_append, hcnt]
      · refine Or.inr ⟨?_, ?_⟩
        · cases hok : o.downloadOk s.downloadTicks with
          | false => simpa using hmem
          | true =>
            show u ∉ build_absolute_url o.urljoin cu hr :: s.downloaded_pdf_urls
            intro hcon
            rcases List.mem_cons.mp hcon with h' | h'
            · exact hu h'.symm
            · exact hmem h'
        · rw [dlOf_append, dlOf_attempt_ne _ _ _ hu]
          simp [List.count_append, hcnt]
  · rw [hc]
    intro u
    rcases h u with ⟨hmem, hcnt⟩ | ⟨hmem, hcnt⟩
    · exact Or.inl ⟨hmem, by rw [dlOf_append, dlOf_enqueue]; simp [hcnt]⟩
    · exact Or.inr ⟨hmem, by rw [dlOf_append, dlOf_enqueue]; simp [hcnt]⟩

/-- One crawl iteration preserves the C6 invariant. -/
theorem ci_inv6 (o : Oracles) (st : String) (s : CrawlState) (h : Inv6 s) :
    Inv6 (crawlIter o st s) := by
  cases hq : s.urls_to_visit with
  | nil => rw [ci_nil o st s hq]; exact h
  | cons cu rest =>
    by_cases hv : urldefrag cu ∈ s.visited_urls
    · rw [ci_skip o st s cu rest hq hv]; exact h
    · cases hf : o.fetchPage cu with
      | none =>
        rw [ci_fail o st s cu rest hq hv hf]
        intro u
        rcases h u with ⟨hm, hc⟩ | ⟨hm, hc⟩
        · exact Or.inl ⟨hm, by rw [dlOf_append, dlOf_fetch_pair]; simp [hc]⟩
        · exact Or.inr ⟨hm, by rw [dlOf_append, dlOf_fetch_pair]; simp [hc]⟩
      | some hrefs =>
        rw [ci_ok o st s cu rest hrefs hq hv hf]
        apply foldlPreserves _ Inv6 (fun s' a h' => pl_inv6 o st cu s' a h')
        intro u
        rcases h u with ⟨hm, hc⟩ | ⟨hm, hc⟩
        · exact Or.inl ⟨hm, by rw [dlOf_append, dlOf_pageFetch]; simp [hc]⟩
        · exact Or.inr ⟨hm, by rw [dlOf_append, dlOf_pageFetch]; simp [hc]⟩

/-- Link classification preserves the C8 invariant. -/
theorem pl_inv8 (o : Oracles) (st cu : String) (s : CrawlState) (hr : String)
    (h : Inv8 s) : Inv8 (processLink o st cu s hr) := by
  obtain ⟨hnd, hsub⟩ := h
  rcases pl_cases o st cu s hr with hc | ⟨_, _, hc⟩ | ⟨_, hvis, hfr, hc⟩
  · rw [hc]; exact ⟨hnd, hsub⟩
  · rw [hc]
    refine ⟨by rw [enqueuedOf_append, enqueuedOf_attempt]; simpa using hnd, ?_⟩
    intro u hu
    rw [enqueuedOf_append, enqueuedOf_attempt] at hu
    exact hsub u (by simpa using hu)
  · rw [hc]
    have hnotin : build_absolute_url o.urljoin cu hr ∉ enqueuedOf s.events := by
      intro hmem
      rcases hsub _ hmem with h' | h'
      · exact hfr h'
      · exact hvis h'
    refine ⟨?_, ?_⟩
    · rw [enqueuedOf_append, enqueuedOf_enqueue]
      simp [List.nodup_append, hnd, hnotin]
    · intro u hu
      rw [enqueuedOf_append, enqueuedOf_enqueue] at hu
      rcases List.mem_append.mp hu with hu' | hu'
      · rcases hsub u hu' with h' | h'
        · exact Or.inl (List.mem_append_left _ h')
        · exact Or.inr h'
      · have he : u = build_absolute_url o.urljoin cu hr := by simpa using hu'
        subst he
        exact Or.inl (List.mem_append_right _ (by simp))

/-- One crawl iteration preserves the C8 invariant. -/
theorem ci_inv8 (o : Oracles) (st : String) (s : CrawlState) (h : Inv8 s) :
    Inv8 (crawlIter o st s) := by
  obtain ⟨hnd, hsub⟩ := h
  cases hq : s.urls_to_visit with
  | nil => rw [ci_nil o st s hq]; exact ⟨hnd, hsub⟩
  | cons cu rest =>
    by_cases hv : urldefrag cu ∈ s.visited_urls
    · rw [ci_skip o st s cu rest hq hv]
      refine ⟨hnd, fun u hu => ?_⟩
      rcases hsub u hu with h' | h'
      · rw [hq] at h'
        rcases List.mem_cons.mp h' with h'' | h''
        · subst h''; exact Or.inr hv
        · exact Or.inl h''
      · exact Or.inr h'
    · have hstep : ∀ u ∈ enqueuedOf s.events,
          u ∈ rest ∨ urldefrag u ∈ urldefrag cu :: s.visited_urls := by
        intro u hu
        rcases hsub u hu with h' | h'
        · rw [hq] at h'
          rcases List.mem_cons.mp h' with h'' | h''
          · subst h''; exact Or.inr (List.mem_cons_self ..)
          · exact Or.inl h''
        · exact Or.inr (List.mem_cons_of_mem _ h')
      cases hf : o.fetchPage cu with
      | none =>
        rw [ci_fail o st s cu rest hq hv hf]
        refine ⟨by rw [enqueuedOf_append, enqueuedOf_fetch_pair]; simpa using hnd, ?_⟩
        intro u hu
        rw [enqueuedOf_append, enqueuedOf_fetch_pair] at hu
        exact hstep u (by simpa using hu)
      | some hrefs =>
        rw [ci_ok o st s cu rest hrefs hq hv hf]
        apply foldlPreserves _ Inv8 (fun s' a h' => pl_inv8 o st cu s' a h')
        refine ⟨by rw [enqueuedOf_append, enqueuedOf_pageFetch]; simpa using hnd, ?_⟩
        intro u hu
        rw [enqueuedOf_append, enqueuedOf_pageFetch] at hu
        exact hstep u (by simpa using hu)

/-- A pointwise-stronger filter keeps at most as many elements. -/
theorem filterLenMono {α : Type} (p q : α → Bool) (himp : ∀ x, q x = true → p x = true) :
    ∀ l : List α, (l.filter q).length ≤ (l.filter p).length
  | [] => Nat.le_refl 0
  | x :: l => by
    have ih := filterLenMono p q himp l
    by_cases hq : q x = true
    · rw [List.filter_cons_of_pos hq, List.filter_cons_of_pos (himp x hq)]
      simpa using ih
    · rw [List.filter_cons_of_neg (by simpa using hq)]
      by_cases hp : p x = true
      · rw [List.filter_cons_of_pos hp]
        exact Nat.le_trans ih (by simp)
      · rw [List.filter_cons_of_neg (by simpa using hp)]
        exact ih

/-- A pointwise-stronger filter that loses a member of the list keeps
strictly fewer elements. -/
theorem filterLenStrict {α : Type} (p q : α → Bool) (himp : ∀ x, q x = true → p x = true) :
    ∀ (l : List α) (x0 : α), x0 ∈ l → p x0 = true → q x0 = false →
      (l.filter q).length < (l.filter p).length
  | [], x0, hx, _, _ => absurd hx (List.not_mem_nil x0)
  | x :: l, x0, hx, hp0, hq0 => by
    rcases List.mem_cons.mp hx with h | h
    · subst h
      rw [List.filter_cons_of_neg (by simp [hq0]), List.filter_cons_of_pos hp0]
      exact Nat.lt_succ_of_le (filterLenMono p q himp l)
    · by_cases hq : q x = true
      · rw [List.filter_cons_of_pos hq, List.filter_cons_of_pos (himp x hq)]
        simpa using filterLenStrict p q himp l x0 h hp0 hq0
      · rw [List.filter_cons_of_neg (by simpa using hq)]
        have ih := filterLenStrict p q himp l x0 h hp0 hq0
        by_cases hp : p x = true
        · rw [List.filter_cons_of_pos hp]
          exact Nat.lt_succ_of_lt ih
        · rw [List.filter_cons_of_neg (by simpa using hp)]
          exact ih

/-- Growing the visited set cannot increase the count of unvisited
normalized URLs. -/
theorem unvisitedMono (D : List String) (visited : List String) (nd : String) :
    ((normUniverse D).filter (fun n => !(decide (n ∈ nd :: visited)))).length
      ≤ ((normUniverse D).filter (fun n => !(decide (n ∈ visited)))).length := by
  apply filterLenMono
  intro x hx
  simp only [Bool.not_eq_true', decide_eq_false_iff_not] at hx ⊢
  exact fun h' => hx (List.mem_cons_of_mem _ h')

/-- Adding the normalized form of a discoverable, not-yet-visited URL to
the visited set strictly decreases the count of unvisited normalized
URLs. -/
theorem unvisitedStrict (D : List String) (visited : List String) (cu : String)
    (hcu : cu ∈ D) (hv : urldefrag cu ∉ visited) :
    ((normUniverse D).filter (fun n => !(decide (n ∈ urldefrag cu :: visited)))).length
      < ((normUniverse D).filter (fun n => !(decide (n ∈ visited)))).length := by
  apply filterLenStrict _ _ ?himp (normUniverse D) (urldefrag cu) ?hmem ?hp ?hq
  case himp =>
    intro x hx
    simp only [Bool.not_eq_true', decide_eq_false_iff_not] at hx ⊢
    exact fun h' => hx (List.mem_cons_of_mem _ h')
  case hmem => exact List.mem_dedup.mpr (List.mem_map_of_mem urldefrag hcu)
  case hp => simp [hv]
  case hq => simp

/-- The crawl iteration keeps every frontier entry inside the closed URL
universe `D`. -/
theorem ci_keepsD (o : Oracles) (st : String) (D : List String)
    (hclosed : ∀ base ∈ D, ∀ hrefs, o.fetchPage base = some hrefs →
        ∀ hr ∈ hrefs, build_absolute_url o.urljoin base hr ∈ D)
    (s : CrawlState) (hD : ∀ u ∈ s.urls_to_visit, u ∈ D) :
    ∀ u ∈ (crawlIter o st s).urls_to_visit, u ∈ D := by
  cases hq : s.urls_to_visit with
  | nil => rw [ci_nil o st s hq]; exact hD
  | cons cu rest =>
    have hrest : ∀ u ∈ rest, u ∈ D := fun u hu =>
      hD u (by rw [hq]; exact List.mem_cons_of_mem _ hu)
    have hcu : cu ∈ D := hD cu (by rw [hq]; exact List.mem_cons_self ..)
    by_cases hv : urldefrag cu ∈ s.visited_urls
    · rw [ci_skip o st s cu rest hq hv]; exact hrest
    · cases hf : o.fetchPage cu with
      | none => rw [ci_fail o st s cu rest hq hv hf]; exact hrest
      | some hrefs =>
        rw [ci_ok o st s cu rest hrefs hq hv hf]
        intro u hu
        rcases foldl_frontier_mem o st cu hrefs _ u hu with h | ⟨x, hx, he⟩
        · exact hrest u h
        · rw [he]; exact hclosed cu hcu hrefs hf x hx

/-- Visited-set entries are never removed by an iteration. -/
theorem ci_visitedMono (o : Oracles) (st : String) (s : CrawlState) (v : String)
    (hv : v ∈ s.visited_urls) : v ∈ (crawlIter o st s).visited_urls := by
  cases hq : s.urls_to_visit with
  | nil => rw [ci_nil o st s hq]; exact hv
  | cons cu rest =>
    by_cases hvis : urldefrag cu ∈ s.visited_urls
    · rw [ci_skip o st s cu rest hq hvis]; exact hv
    · cases hf : o.fetchPage cu with
      | none => rw [ci_fail o st s cu rest hq hvis hf]; exact List.mem_cons_of_mem _ hv
      | some hrefs =>
        rw [ci_ok o st s cu rest hrefs hq hvis hf, foldl_visited]
        exact List.mem_cons_of_mem _ hv

/-- On a nonempty frontier drawn from the closed universe `D`, one crawl
iteration strictly decreases the termination measure. -/
theorem ci_measure (o : Oracles) (st : String) (D : List String) (M : Nat)
    (hM : ∀ base ∈ D, ∀ hrefs, o.fetchPage base = some hrefs → hrefs.length ≤ M)
    (s : CrawlState) (cu : String) (rest : List String)
    (hq : s.urls_to_visit = cu :: rest) (hcu : cu ∈ D) :
    crawlMeasure D M (crawlIter o st s) < crawlMeasure D M s := by
  by_cases hv : urldefrag cu ∈ s.visited_urls
  · rw [ci_skip o st s cu rest hq hv]
    simp only [crawlMeasure, hq, List.length_cons]
    omega
  · cases hf : o.fetchPage cu with
    | none =>
      rw [ci_fail o st s cu rest hq hv hf]
      simp only [crawlMeasure, hq, List.length_cons]
      have hmono := unvisitedMono D s.visited_urls (urldefrag cu)
      have hx := Nat.mul_le_mul_right (M + 1) hmono
      omega
    | some hrefs =>
      rw [ci_ok o st s cu rest hrefs hq hv hf]
      have hlen := foldl_frontier_len o st cu hrefs
        { s with
          urls_to_visit := rest,
          visited_urls := urldefrag cu :: s.visited_urls,
          events := s.events ++ [CrawlEvent.pageFetch cu] }
      have hhm : hrefs.length ≤ M := hM cu hcu hrefs hf
      have hstrict := unvisitedStrict D s.visited_urls cu hcu hv
      simp only [crawlMeasure, hq, List.length_cons, foldl_visited] at hlen ⊢
      have hx := Nat.mul_le_mul_right (M + 1)
        (show ((normUniverse D).filter
            (fun n => !(decide (n ∈ urldefrag cu :: s.visited_urls)))).length + 1
          ≤ ((normUniverse D).filter (fun n => !(decide (n ∈ s.visited_urls)))).length
         from hstrict)
      have hy : (((normUniverse D).filter
            (fun n => !(decide (n ∈ urldefrag cu :: s.visited_urls)))).length + 1)
            * (M + 1)
          = ((normUniverse D).filter
              (fun n => !(decide (n ∈ urldefrag cu :: s.visited_urls)))).length * (M + 1)
            + (M + 1) := by ring
      omega

/-- With all discoverable URLs inside `D`, enough fuel drains the
frontier completely. -/
theorem crawlLoop_drains (o : Oracles) (st : String) (D : List String) (M : Nat)
    (hclosed : ∀ base ∈ D, ∀ hrefs, o.fetchPage base = some hrefs →
        ∀ hr ∈ hrefs, build_absolute_url o.urljoin base hr ∈ D)
    (hM : ∀ base ∈ D, ∀ hrefs, o.fetchPage base = some hrefs → hrefs.length ≤ M) :
    ∀ (fuel : Nat) (s : CrawlState), (∀ u ∈ s.urls_to_visit, u ∈ D) →
      crawlMeasure D M s ≤ fuel → (crawlLoop o st fuel s).urls_to_visit = []
  | 0, s, _, hm => by
    have hlen : s.urls_to_visit.length = 0 := by
      unfold crawlMeasure at hm
      omega
    have : s.urls_to_visit = [] := List.length_eq_zero.mp hlen
    simpa [crawlLoop] using this
  | fuel + 1, s, hD, hm => by
    cases hq : s.urls_to_visit with
    | nil =>
      have h1 : crawlLoop o st (fuel + 1) s
          = match s.urls_to_visit with
            | [] => s
            | _ :: _ => crawlLoop o st fuel (crawlIter o st s) := rfl
      rw [h1, hq]
      exact hq
    | cons cu rest =>
      have hcu : cu ∈ D := hD cu (by rw [hq]; exact List.mem_cons_self ..)
      have hlt := ci_measure o st D M hM s cu rest hq hcu
      have hD' := ci_keepsD o st D hclosed s hD
      have h1 : crawlLoop o st (fuel + 1) s
          = match s.urls_to_visit with
            | [] => s
            | _ :: _ => crawlLoop o st fuel (crawlIter o st s) := rfl
      rw [h1, hq]
      exact crawlLoop_drains o st D M hclosed hM fuel (crawlIter o st s) hD' (by omega)

/-! ## Theorems -/

/-- C1 (confirmed): whenever the standard RFC 3986 resolution of
`(base, href)` yields a URL whose query component contains an embedded
`?`, `build_absolute_url` returns the URL reconstructed — via
`urlunparse` — with scheme, host, path (and params) and fragment taken
unchanged from the parse of the resolved URL and the query replaced by
the substring after the last `?`; and in particular, resolving base
`https://x/y?page=1` against href `?page=2` (whose standard resolution
is `https://x/y?page=2`) yields `https://x/y?page=2`, not
`https://x/y?page=1?page=2`. -/
theorem build_absolute_url_repairs_embedded_query
    (urljoin : String → String → String) (base href : String)
    (hq : strContainsChar (urlparse (urljoin base href)).query '?' = true)
    (hstd : urljoin "https://x/y?page=1" "?page=2" = "https://x/y?page=2") :
    build_absolute_url urljoin base href =
      urlunparse
        ⟨(urlparse (urljoin base href)).scheme,
         (urlparse (urljoin base href)).netloc,
         (urlparse (urljoin base href)).path,
         (urlparse (urljoin base href)).params,
         lastPartAfterQuestion (urlparse (urljoin base href)).query,
         (urlparse (urljoin base href)).fragment⟩
    ∧ build_absolute_url urljoin "https://x/y?page=1" "?page=2" = "https://x/y?page=2" := by
  constructor
  · unfold build_absolute_url
    rw [if_pos hq]
  · unfold build_absolute_url
    rw [hstd]
    decide

/-- Witness for C1 at a concrete resolution oracle: one input takes the
repair branch, and the spec's pagination example evaluates to
`https://x/y?page=2`. -/
theorem build_absolute_url_repairs_embedded_query_witness :
    build_absolute_url
        (fun _ hr => if hr = "?page=2" then "https://x/y?page=2" else "https://x/a?q=1?q=2")
        "b" "h" = "https://x/a?q=2"
    ∧ build_absolute_url
        (fun _ hr => if hr = "?page=2" then "https://x/y?page=2" else "https://x/a?q=1?q=2")
        "https://x/y?page=1" "?page=2" = "https://x/y?page=2" := by
  have h := build_absolute_url_repairs_embedded_query
    (fun _ hr => if hr = "?page=2" then "https://x/y?page=2" else "https://x/a?q=1?q=2")
    "b" "h" (by decide) (by decide)
  refine ⟨?_, h.2⟩
  rw [h.1]
  decide

/-- C2 counterexample: with start URL `https://site.example/section/`,
the claim says the discovered link `https://site.example.evil.com/section/`
is NOT discarded; but that link does not pass the literal string-test of
the scope check (`https://site.example.evil.com/...` does not start with
the string `https://site.example/section/`), so link classification
leaves the state unchanged — the link is discarded, never enqueued. -/
theorem scope_check_discards_evil_host :
    processLink idJoinOracle "https://site.example/section/"
        "https://site.example/section/" blankState
        "https://site.example.evil.com/section/" = blankState
    ∧ strStartsWith (urldefrag "https://site.example.evil.com/section/")
        "https://site.example/section/" = false := by
  decide

/-- C2 (corrected): with start URL `https://site.example/section/`, link
classification enqueues the discovered non-PDF link
`https://site.example/section/sub`, discards `https://site.example/other`,
and ALSO discards `https://site.example.evil.com/section/`, because the
scope check is a literal string-test on the fragment-stripped URL and
that URL does not start with the start-URL string. -/
theorem scope_check_literal_string_test :
    (processLink idJoinOracle "https://site.example/section/"
        "https://site.example/section/" blankState
        "https://site.example/section/sub").urls_to_visit
      = ["https://site.example/section/sub"]
    ∧ (processLink idJoinOracle "https://site.example/section/"
        "https://site.example/section/" blankState
        "https://site.example/other").urls_to_visit = []
    ∧ (processLink idJoinOracle "https://site.example/section/"
        "https://site.example/section/" blankState
        "https://site.example.evil.com/section/").urls_to_visit = []
    ∧ strStartsWith "https://site.example/section/sub" "https://site.example/section/" = true
    ∧ strStartsWith "https://site.example/other" "https://site.example/section/" = false := by
  decide

/-- C3 (confirmed): for every per-attempt outcome oracle,
`make_request_with_retries` is fully characterized by at most `RETRIES =
3` GET attempts: it returns the first successful response immediately
(no further attempt, no further sleep), sleeps `BACKOFF_FACTOR * 2 ^ i`
seconds (1s after failed attempt 0, 2s after failed attempt 1) between a
failed attempt `i` and attempt `i + 1`, and does not sleep after the
final failed attempt. -/
theorem make_request_with_retries_trace {α : Type} (outcomes : Nat → Option α) :
    make_request_with_retries outcomes =
      match outcomes 0 with
      | some r => (some r, [FetchEvent.attempt 0])
      | none =>
        match outcomes 1 with
        | some r =>
            (some r,
             [FetchEvent.attempt 0, FetchEvent.sleep (BACKOFF_FACTOR * 2 ^ 0),
              FetchEvent.attempt 1])
        | none =>
          match outcomes 2 with
          | some r =>
              (some r,
               [FetchEvent.attempt 0, FetchEvent.sleep (BACKOFF_FACTOR * 2 ^ 0),
                FetchEvent.attempt 1, FetchEvent.sleep (BACKOFF_FACTOR * 2 ^ 1),
                FetchEvent.attempt 2])
          | none =>
              (none,
               [FetchEvent.attempt 0, FetchEvent.sleep (BACKOFF_FACTOR * 2 ^ 0),
                FetchEvent.attempt 1, FetchEvent.sleep (BACKOFF_FACTOR * 2 ^ 1),
                FetchEvent.attempt 2]) := by
  exact retryTraceEq outcomes

/-- C4 (confirmed): in every crawl execution each fragment-stripped URL
is fetched at most once; a dequeued frontier entry whose
fragment-stripped form is already visited is discarded with no fetch and
no other state change; and a dequeued entry not yet visited has its
fragment-stripped form added to the visited set while exactly one fetch
of it is recorded — hence a page reachable via two fragment variants is
fetched at most once. -/
theorem crawl_fetches_each_page_at_most_once
    (o : Oracles) (start_url n : String) (fuel : Nat) :
    (pageFetchNormsOf (crawl_and_download_pdfs o start_url fuel).events).count n ≤ 1
    ∧ (∀ s cu rest, s.urls_to_visit = cu :: rest → urldefrag cu ∈ s.visited_urls →
        crawlIter o start_url s = { s with urls_to_visit := rest })
    ∧ (∀ s cu rest, s.urls_to_visit = cu :: rest → urldefrag cu ∉ s.visited_urls →
        urldefrag cu ∈ (crawlIter o start_url s).visited_urls
        ∧ pageFetchNormsOf (crawlIter o start_url s).events
            = pageFetchNormsOf s.events ++ [urldefrag cu]) := by
  refine ⟨?_, fun s cu rest hq hv => ci_skip o start_url s cu rest hq hv, ?_⟩
  · have hinv : Inv4 (crawl_and_download_pdfs o start_url fuel) :=
      loopPreserves o start_url Inv4 (ci_inv4 o start_url) fuel (initState start_url)
        ⟨by simp [pageFetchNormsOf, initState], by simp [pageFetchNormsOf, initState]⟩
    exact List.nodup_iff_count_le_one.mp hinv.1 n
  · intro s cu rest hq hv
    cases hf : o.fetchPage cu with
    | none =>
      rw [ci_fail o start_url s cu rest hq hv hf]
      exact ⟨List.mem_cons_self .., by simp [pageFetchNormsOf_append, pageFetchNormsOf]⟩
    | some hrefs =>
      rw [ci_ok o start_url s cu rest hrefs hq hv hf]
      rw [foldl_visited, foldl_fetchNorms]
      exact ⟨List.mem_cons_self .., by simp [pageFetchNormsOf_append, pageFetchNormsOf]⟩

/-- Witness for C4 at a concrete oracle and concrete states. -/
theorem crawl_fetches_each_page_at_most_once_witness :
    (pageFetchNormsOf (crawl_and_download_pdfs idJoinOracle "s" 1).events).count "x" ≤ 1
    ∧ crawlIter idJoinOracle "s" ⟨["u"], ["u"], [], 0, []⟩
        = ⟨[], ["u"], [], 0, []⟩
    ∧ urldefrag "u" ∈ (crawlIter idJoinOracle "s" ⟨["u"], [], [], 0, []⟩).visited_urls := by
  have h := crawl_fetches_each_page_at_most_once idJoinOracle "s" "x" 1
  exact ⟨h.1, h.2.1 ⟨["u"], ["u"], [], 0, []⟩ "u" [] rfl (by decide),
    (h.2.2 ⟨["u"], [], [], 0, []⟩ "u" [] rfl (by decide)).1⟩

/-- C7 (confirmed): the fetch layer is a total function into an option —
when every attempt fails it returns the failure value `none` after
exhausting the retries — and the crawl loop treats a failed page fetch
by marking the URL visited, recording the failure, and moving on to the
rest of the frontier with no re-enqueue and no abort: the loop simply
continues on the remaining frontier. -/
theorem fetch_failure_skips_url {α : Type} (outcomes : Nat → Option α)
    (o : Oracles) (start_url : String)
    (hfail : ∀ i, i < RETRIES → outcomes i = none) :
    (make_request_with_retries outcomes).1 = none
    ∧ (∀ s cu rest, s.urls_to_visit = cu :: rest → urldefrag cu ∉ s.visited_urls →
        o.fetchPage cu = none →
        crawlIter o start_url s = { s with
          urls_to_visit := rest,
          visited_urls := urldefrag cu :: s.visited_urls,
          events := s.events ++ [CrawlEvent.pageFetch cu, CrawlEvent.fetchFailed cu] })
    ∧ (∀ fuel s cu rest, s.urls_to_visit = cu :: rest →
        crawlLoop o start_url (fuel + 1) s
          = crawlLoop o start_url fuel (crawlIter o start_url s)) := by
  refine ⟨?_, fun s cu rest hq hv hf => ci_fail o start_url s cu rest hq hv hf, ?_⟩
  · rw [retryTraceEq outcomes, hfail 0 (by decide), hfail 1 (by decide), hfail 2 (by decide)]
  · intro fuel s cu rest hq
    have h1 : crawlLoop o start_url (fuel + 1) s
        = match s.urls_to_visit with
          | [] => s
          | _ :: _ => crawlLoop o start_url fuel (crawlIter o start_url s) := rfl
    rw [h1, hq]

/-- Witness for C7: all-failing transport yields `none`, and a concrete
failed page fetch is skipped while the loop keeps running. -/
theorem fetch_failure_skips_url_witness :
    (make_request_with_retries (fun _ => (none : Option Unit))).1 = none
    ∧ crawlIter idJoinOracle "s" ⟨["u"], [], [], 0, []⟩
        = ⟨[], ["u"], [], 0, [CrawlEvent.pageFetch "u", CrawlEvent.fetchFailed "u"]⟩
    ∧ crawlLoop idJoinOracle "s" 1 ⟨["u"], [], [], 0, []⟩
        = crawlLoop idJoinOracle "s" 0 (crawlIter idJoinOracle "s" ⟨["u"], [], [], 0, []⟩) := by
  have h := fetch_failure_skips_url (fun _ => (none : Option Unit)) idJoinOracle "s"
    (fun _ _ => rfl)
  refine ⟨h.1, ?_, h.2.2 0 ⟨["u"], [], [], 0, []⟩ "u" [] rfl⟩
  rw [h.2.1 ⟨["u"], [], [], 0, []⟩ "u" [] rfl (by decide) rfl]
  decide

/-- C9 (confirmed): the PDF test examines the full resolved URL string
before fragment stripping: a resolved link that does not itself end in
`.pdf` (case-insensitively) triggers no download — the downloaded set
and the download counter are untouched — even when only a trailing
fragment or query hides a `.pdf` path; concretely,
`https://x/doc.pdf#page=3` and `https://x/doc.pdf?v=2` are not
classified as PDFs and are enqueued as in-scope pages instead. -/
theorem pdf_test_precedes_fragment_strip
    (o : Oracles) (st cu : String) (s : CrawlState) (hr : String)
    (hnot : strEndsWith (strLower (build_absolute_url o.urljoin cu hr)) ".pdf" = false) :
    ((processLink o st cu s hr).downloaded_pdf_urls = s.downloaded_pdf_urls
      ∧ (processLink o st cu s hr).downloadTicks = s.downloadTicks
      ∧ ∀ u, dlOf u (processLink o st cu s hr).events = dlOf u s.events)
    ∧ strEndsWith (strLower "https://x/doc.pdf#page=3") ".pdf" = false
    ∧ strEndsWith (strLower "https://x/doc.pdf?v=2") ".pdf" = false
    ∧ (processLink idJoinOracle "https://x/" "https://x/" blankState
        "https://x/doc.pdf#page=3").urls_to_visit = ["https://x/doc.pdf#page=3"]
    ∧ (processLink idJoinOracle "https://x/" "https://x/" blankState
        "https://x/doc.pdf?v=2").urls_to_visit = ["https://x/doc.pdf?v=2"]
    ∧ (processLink idJoinOracle "https://x/" "https://x/" blankState
        "https://x/doc.pdf#page=3").downloadTicks = 0 := by
  refine ⟨?_, by decide, by decide, by decide, by decide, by decide⟩
  rcases pl_cases o st cu s hr with h | ⟨hpdf, _, _⟩ | ⟨_, _, _, h⟩
  · rw [h]; exact ⟨rfl, rfl, fun _ => rfl⟩
  · rw [hnot] at hpdf; cases hpdf
  · rw [h]
    exact ⟨rfl, rfl, fun u => by simp [dlOf_append, dlOf]⟩

/-- Witness for C9 at the concrete fragment-bearing PDF link. -/
theorem pdf_test_precedes_fragment_strip_witness :
    (processLink idJoinOracle "https://x/" "https://x/" blankState
        "https://x/doc.pdf#page=3").downloaded_pdf_urls = blankState.downloaded_pdf_urls
    ∧ (processLink idJoinOracle "https://x/" "https://x/" blankState
        "https://x/doc.pdf#page=3").urls_to_visit = ["https://x/doc.pdf#page=3"] := by
  have h := pdf_test_precedes_fragment_strip idJoinOracle "https://x/" "https://x/"
    blankState "https://x/doc.pdf#page=3" (by decide)
  exact ⟨h.1.1, h.2.2.2.1⟩

/-- C10 (confirmed): the scope test guards only the page branch: a
resolved link that case-insensitively ends with `.pdf` and is not yet in
the downloaded set gets a download attempt whose effect does not depend
on the start URL at all — in particular the out-of-scope PDF
`https://other.example/f.pdf` is attempted under start URL
`https://s/sec/` although it fails the scope string-test. -/
theorem pdf_download_ignores_scope
    (o : Oracles) (st cu : String) (s : CrawlState) (hr : String)
    (hpdf : strEndsWith (strLower (build_absolute_url o.urljoin cu hr)) ".pdf" = true)
    (hnew : build_absolute_url o.urljoin cu hr ∉ s.downloaded_pdf_urls) :
    processLink o st cu s hr = { s with
      downloadTicks := s.downloadTicks + 1,
      events := s.events ++
        [CrawlEvent.downloadAttempt (build_absolute_url o.urljoin cu hr)
          (o.downloadOk s.downloadTicks)],
      downloaded_pdf_urls :=
        if o.downloadOk s.downloadTicks = true
        then build_absolute_url o.urljoin cu hr :: s.downloaded_pdf_urls
        else s.downloaded_pdf_urls }
    ∧ (processLink idJoinOracle "https://s/sec/" "https://s/sec/" blankState
        "https://other.example/f.pdf").events
        = [CrawlEvent.downloadAttempt "https://other.example/f.pdf" false]
    ∧ strStartsWith (urldefrag "https://other.example/f.pdf") "https://s/sec/" = false := by
  exact ⟨pl_pdf_new o st cu s hr hpdf hnew, by decide, by decide⟩

/-- C6 (confirmed): a PDF URL enters the downloaded set exactly when a
download attempt for it succeeds, successful attempts for the same exact
URL never repeat (so one PDF linked from two pages is written once), an
attempt is made only when the exact URL is absent from the downloaded
set (otherwise classification is a no-op), and in the concrete scenario
where the first download of `https://s/d.pdf` fails and the PDF is
rediscovered on a later page, a second attempt is made and succeeds. -/
theorem pdf_downloaded_iff_success
    (o : Oracles) (start_url u : String) (fuel : Nat) :
    (dlOf u (crawl_and_download_pdfs o start_url fuel).events).count true ≤ 1
    ∧ (u ∈ (crawl_and_download_pdfs o start_url fuel).downloaded_pdf_urls
        ↔ (dlOf u (crawl_and_download_pdfs o start_url fuel).events).count true = 1)
    ∧ (∀ s cu hr, strEndsWith (strLower (build_absolute_url o.urljoin cu hr)) ".pdf" = true →
        build_absolute_url o.urljoin cu hr ∈ s.downloaded_pdf_urls →
        processLink o start_url cu s hr = s)
    ∧ dlOf "https://s/d.pdf" (crawl_and_download_pdfs scenarioOracle "https://s/" 4).events
        = [false, true] := by
  have hinv : Inv6 (crawl_and_download_pdfs o start_url fuel) :=
    loopPreserves o start_url Inv6 (ci_inv6 o start_url) fuel (initState start_url)
      (fun v => Or.inr ⟨by simp [initState], by simp [initState, dlOf]⟩)
  refine ⟨?_, ?_, fun s cu hr hpdf hmem => pl_pdf_dup o start_url cu s hr hpdf hmem, by decide⟩
  · rcases hinv u with ⟨_, hc⟩ | ⟨_, hc⟩ <;> omega
  · rcases hinv u with ⟨hm, hc⟩ | ⟨hm, hc⟩
    · exact ⟨fun _ => hc, fun _ => hm⟩
    · exact ⟨fun hmm => absurd hmm hm, fun hc1 => by omega⟩

/-- Witness for C6: the retry scenario evaluates, and a PDF already in
the downloaded set is skipped. -/
theorem pdf_downloaded_iff_success_witness :
    (dlOf "https://s/d.pdf"
        (crawl_and_download_pdfs scenarioOracle "https://s/" 4).events).count true ≤ 1
    ∧ processLink scenarioOracle "https://s/" "c"
        ⟨[], [], ["https://s/x.pdf"], 0, []⟩ "https://s/x.pdf"
        = ⟨[], [], ["https://s/x.pdf"], 0, []⟩ := by
  have h := pdf_downloaded_iff_success scenarioOracle "https://s/" "https://s/d.pdf" 4
  exact ⟨h.1, h.2.2.1 ⟨[], [], ["https://s/x.pdf"], 0, []⟩ "c" "https://s/x.pdf"
    (by decide) (by decide)⟩

/-- C8 (confirmed): the frontier obeys FIFO discipline — an iteration
removes exactly the head and link classification appends at the tail —
and no absolute-URL string is ever enqueued twice in a crawl execution:
at enqueue time the raw URL is checked against the frontier and its
fragment-stripped form against the visited set, and these checks make
the whole sequence of enqueued URLs duplicate-free. -/
theorem frontier_fifo_and_no_duplicate_enqueue
    (o : Oracles) (start_url : String) (fuel : Nat) :
    (enqueuedOf (crawl_and_download_pdfs o start_url fuel).events).Nodup
    ∧ (∀ s cu rest, s.urls_to_visit = cu :: rest →
        (crawlIter o start_url s).urls_to_visit.take rest.length = rest)
    ∧ (∀ s cu hr, (processLink o start_url cu s hr).urls_to_visit = s.urls_to_visit
        ∨ (build_absolute_url o.urljoin cu hr ∉ s.urls_to_visit
           ∧ urldefrag (build_absolute_url o.urljoin cu hr) ∉ s.visited_urls
           ∧ (processLink o start_url cu s hr).urls_to_visit
               = s.urls_to_visit ++ [build_absolute_url o.urljoin cu hr])) := by
  refine ⟨?_, ?_, ?_⟩
  · exact (loopPreserves o start_url Inv8 (ci_inv8 o start_url) fuel (initState start_url)
      ⟨by simp [enqueuedOf, initState], by simp [enqueuedOf, initState]⟩).1
  · intro s cu rest hq
    by_cases hv : urldefrag cu ∈ s.visited_urls
    · rw [ci_skip o start_url s cu rest hq hv]
      exact List.take_length rest
    · cases hf : o.fetchPage cu with
      | none =>
        rw [ci_fail o start_url s cu rest hq hv hf]
        exact List.take_length rest
      | some hrefs =>
        obtain ⟨t, ht⟩ := foldl_frontier_append o start_url cu hrefs
          { s with
            urls_to_visit := rest,
            visited_urls := urldefrag cu :: s.visited_urls,
            events := s.events ++ [CrawlEvent.pageFetch cu] }
        rw [ci_ok o start_url s cu rest hrefs hq hv hf, ht]
        exact List.take_left rest t
  · intro s cu hr
    rcases pl_cases o start_url cu s hr with h | ⟨_, _, h⟩ | ⟨_, hvis, hfr, h⟩
    · exact Or.inl (by rw [h])
    · exact Or.inl (by rw [h])
    · exact Or.inr ⟨hfr, hvis, by rw [h]⟩

/-- Witness for C8 at a concrete oracle and states. -/
theorem frontier_fifo_and_no_duplicate_enqueue_witness :
    (enqueuedOf (crawl_and_download_pdfs scenarioOracle "https://s/" 4).events).Nodup
    ∧ (crawlIter idJoinOracle "s" ⟨["u", "v"], ["u"], [], 0, []⟩).urls_to_visit.take 1
        = ["v"] := by
  have h8 := frontier_fifo_and_no_duplicate_enqueue scenarioOracle "https://s/" 4
  have h8' := frontier_fifo_and_no_duplicate_enqueue idJoinOracle "s" 0
  exact ⟨h8.1, h8'.2.1 ⟨["u", "v"], ["u"], [], 0, []⟩ "u" ["v"] rfl⟩

/-- C5 (confirmed): when the discoverable URL strings form a finite set
`D` — the start URL is in `D`, resolving any href extracted from a page
of `D` stays in `D`, and `M` bounds the hrefs per page — the main loop
terminates: visited entries are never removed, and with fuel at least
`|normalized D| * (M + 1) + 1` (the measure of the initial state, which
every iteration strictly decreases) the frontier is completely drained. -/
theorem crawl_terminates_on_finite_universe
    (o : Oracles) (start_url : String) (D : List String) (M fuel : Nat)
    (hstart : start_url ∈ D)
    (hclosed : ∀ base ∈ D, ∀ hrefs, o.fetchPage base = some hrefs →
        ∀ hr ∈ hrefs, build_absolute_url o.urljoin base hr ∈ D)
    (hM : ∀ base ∈ D, ∀ hrefs, o.fetchPage base = some hrefs → hrefs.length ≤ M)
    (hfuel : (normUniverse D).length * (M + 1) + 1 ≤ fuel) :
    (crawl_and_download_pdfs o start_url fuel).urls_to_visit = []
    ∧ ∀ s v, v ∈ s.visited_urls → v ∈ (crawlIter o start_url s).visited_urls := by
  refine ⟨?_, fun s v hv => ci_visitedMono o start_url s v hv⟩
  apply crawlLoop_drains o start_url D M hclosed hM fuel (initState start_url)
  · intro u hu
    have : u = start_url := by simpa [initState] using hu
    rw [this]
    exact hstart
  · have hfull : ((normUniverse D).filter
        (fun n => !(decide (n ∈ (initState start_url).visited_urls)))).length
        = (normUniverse D).length := by
      simp [initState]
    unfold crawlMeasure
    rw [hfull]
    simpa [initState] using hfuel

/-- Witness for C5: a one-page universe with no outgoing links drains
with fuel 2, and the visited set only grows on a concrete state. -/
theorem crawl_terminates_on_finite_universe_witness :
    (crawl_and_download_pdfs ⟨fun _ hr => hr, fun _ => some [], fun _ => true⟩
        "s" 2).urls_to_visit = []
    ∧ "v" ∈ (crawlIter ⟨fun _ hr => hr, fun _ => some [], fun _ => true⟩
        "s" ⟨[], ["v"], [], 0, []⟩).visited_urls := by
  have h := crawl_terminates_on_finite_universe
    ⟨fun _ hr => hr, fun _ => some [], fun _ => true⟩ "s" ["s"] 0 2
    (by decide)
    (by
      intro base hb hrefs hf hr hhr
      have he : hrefs = [] := by
        have : some ([] : List String) = some hrefs := hf
        exact (Option.some.injEq _ _ ▸ this).symm
      rw [he] at hhr
      exact absurd hhr (List.not_mem_nil hr))
    (by
      intro base hb hrefs hf
      have he : hrefs = [] := by
        have : some ([] : List String) = some hrefs := hf
        exact (Option.some.injEq _ _ ▸ this).symm
      rw [he]
      exact Nat.le_refl 0)
    (by decide)
  exact ⟨h.1, h.2 ⟨[], ["v"], [], 0, []⟩ "v" (by decide)⟩

/-- Witness for C10 at the concrete out-of-scope PDF link. -/
theorem pdf_download_ignores_scope_witness :
    processLink idJoinOracle "https://s/sec/" "https://s/sec/" blankState
        "https://other.example/f.pdf"
      = ⟨[], [], [], 1, [CrawlEvent.downloadAttempt "https://other.example/f.pdf" false]⟩ := by
  have h := pdf_download_ignores_scope idJoinOracle "https://s/sec/" "https://s/sec/"
    blankState "https://other.example/f.pdf" (by decide) (by decide)
  rw [h.1]
  decide

end Scrap
